import Mathlib

/-!
Verification of the Provider Abstraction + Response Normalization pipeline of
the `LLM_Copilot_Extension` VS Code extension (`src/extension_updated.ts`).

Strings are modelled as `List Char`.  JavaScript's `String.prototype.replace`
with a global literal pattern is modelled by `removeAll` (one left-to-right,
non-rescanning pass that deletes each match); the `/pat\s*/g` variants used by
the JSON cleanup additionally absorb the whitespace run following each match
(`absorb := true`).  `String.prototype.trim` is modelled by `trimList` over
the common JavaScript whitespace characters.  `JSON.parse` is modelled by a
recursive-descent parser `parseJson` over an exact decimal number
representation (`Json.num m e` denotes `m * 10 ^ e`; IEEE-754 rounding of
numeric literals is not modelled, which is irrelevant here because none of the
verified components computes with the numbers).
-/

set_option maxRecDepth 100000

/-- Strings from the TypeScript source are modelled as lists of characters. -/
abbrev Str := List Char

/-- Whitespace as treated by JavaScript's `trim` and the regex class `\s`
(the characters that actually occur in practice: space, tab, LF, CR, VT, FF,
NBSP, BOM, LS, PS). -/
def isJsWs (c : Char) : Bool :=
  c = ' ' || c = '\t' || c = '\n' || c = '\r' || c = Char.ofNat 11 ||
  c = Char.ofNat 12 || c = Char.ofNat 160 || c = Char.ofNat 65279 ||
  c = Char.ofNat 8232 || c = Char.ofNat 8233

/-- Model of `String.prototype.trim`: drop JS whitespace from both ends. -/
def trimList (s : Str) : Str := (s.dropWhile isJsWs).rdropWhile isJsWs

/-- The text scanning resumes on after `removeAllF` deletes a match of `pat`
starting at the current character: the remaining `pat.length - 1` matched
characters are dropped, and with `absorb := true` the following whitespace
run is dropped too (modelling the greedy `\s*`). -/
def afterMatch (absorb : Bool) (pat : Str) (rest : Str) : Str :=
  if absorb then (rest.drop (pat.length - 1)).dropWhile isJsWs
  else rest.drop (pat.length - 1)

/-- Fuel-driven worker for `removeAll` (structural recursion, so concrete
inputs evaluate inside the kernel).  With fuel at least the input length the
fuel never runs out. -/
def removeAllF (absorb : Bool) (pat : Str) : Nat → Str → Str
  | _, [] => []
  | 0, s => s
  | fuel + 1, c :: rest =>
    if List.isPrefixOf pat (c :: rest) then
      removeAllF absorb pat fuel (afterMatch absorb pat rest)
    else
      c :: removeAllF absorb pat fuel rest

/-- Model of `s.replace(/pat/g, '')` (literal pattern, empty replacement):
one left-to-right pass; at each position, if `pat` starts here the match is
deleted and scanning resumes after it, otherwise the character is kept.  With
`absorb := true` it models `s.replace(/pat\s*/g, '')`: the (maximal, possibly
empty) whitespace run after each match is deleted too, as `\s*` is greedy. -/
def removeAll (absorb : Bool) (pat : Str) (s : Str) : Str :=
  removeAllF absorb pat s.length s

/-- Model of the `sanitizedResponse` computation in the
`codesuggestion.generateWorkflowDiagram` handler
(`extension_updated.ts:164-167`):
`mermaidSyntax.replace(/```mermaid/g, '').replace(/```/g, '').trim()`. -/
def sanitizeDiagram (raw : Str) : Str :=
  trimList (removeAll false "```".data (removeAll false "```mermaid".data raw))

/-- Model of the validity check at `extension_updated.ts:174`:
`sanitizedResponse.startsWith('graph TD') || sanitizedResponse.startsWith('graph LR')`. -/
def diagramValid (s : Str) : Bool :=
  List.isPrefixOf "graph TD".data s || List.isPrefixOf "graph LR".data s

/-- The user-visible message of the diagram validation error
(`extension_updated.ts:175`). -/
def invalidDiagramMsg : Str :=
  "Invalid Mermaid.js syntax generated. Please try again.".data

/-- The diagram-mode response normalizer: sanitize as the handler does, then
either render the sanitized diagram text (success) or surface the validation
error and render nothing (`extension_updated.ts:164-179`). -/
def normalizeDiagram (raw : Str) : Except Str Str :=
  let s := sanitizeDiagram raw
  if diagramValid s then .ok s else .error invalidDiagramMsg

/-- Number of copies of `c` at the head of a list. -/
def leadCount (c : Char) : Str → Nat
  | [] => 0
  | a :: t => if a = c then leadCount c t + 1 else 0

/-- The backtick character, named to keep delimiter reasoning readable. -/
def btChar : Char := Char.ofNat 96

/-- ASCII lowercasing of one character, modelling what JavaScript's
`toLowerCase` does on the provider identifier strings (`A`-`Z` map to
`a`-`z`; everything else is untouched). -/
def lowerChar (c : Char) : Char :=
  if 65 ≤ c.toNat ∧ c.toNat ≤ 90 then Char.ofNat (c.toNat + 32) else c

/-- Model of `type.toLowerCase()` in `LLMFactory.getProvider`. -/
def toLowerStr (s : Str) : Str := s.map lowerChar

/-- The two concrete providers the factory can construct. -/
inductive ProviderKind
  | groq
  | gemini
deriving DecidableEq

/-- Model of `LLMFactory.getProvider` (`extension_updated.ts:63-75`):
`switch (type.toLowerCase())` with cases `'groq'` and `'gemini'`, and
`default: return new GroqProvider()`. -/
def LLMFactory.getProvider (type : Str) : ProviderKind :=
  let t := toLowerStr type
  if t = "groq".data then .groq
  else if t = "gemini".data then .gemini
  else .groq

/-- The uniform result abstraction of the spec's `ModelResult`: each adapter
call yields exactly one result.  The TypeScript encodes it as a plain string;
the code branches that return the error texts are the `failure` results. -/
inductive ModelResult
  | success (text : Str)
  | failure (message : Str)
deriving DecidableEq

/-- JavaScript falsiness of a `string | undefined` configuration value:
`undefined` and the empty string are falsy (the `if (!apiKey)` guard). -/
def jsFalsyStr : Option Str → Bool
  | none => true
  | some s => s.isEmpty

/-- Shape of `response.data.choices[0].message` in the Groq payload. -/
structure GroqMessage where
  content : Option Str
deriving DecidableEq

/-- Shape of an entry of `response.data.choices`. -/
structure GroqChoice where
  message : Option GroqMessage
deriving DecidableEq

/-- Outcome of the single `axios.post` call a Groq request performs
(`extension_updated.ts:23-27`), supplied as an oracle input: either the await
resolves with a payload (`ok`; `choices := none` models `data.choices` being
absent), or it rejects with an Axios error carrying the optional
`error.response.data.error.message` and the mandatory `error.message`, or it
throws a non-Axios exception. -/
inductive GroqOutcome
  | ok (choices : Option (List GroqChoice))
  | axiosError (responseMessage : Option Str) (message : Str)
  | otherThrow
deriving DecidableEq

/-- Mapping of the awaited outcome to the returned string
(`extension_updated.ts:28-34`).  On `ok` with `choices` present,
`choices[0]?.message?.content?.trim() || 'No response generated'`: any break
in the optional chain, and also content that trims to the empty (falsy)
string, selects the fallback.  On `ok` with `choices` absent,
`data.choices[0]` throws a TypeError, which the `catch` classifies as
non-Axios (`'An unknown error occurred with Groq.'`).  On an Axios error the
message is `error.response?.data?.error?.message || error.message`. -/
def groqMapOutcome : GroqOutcome → ModelResult
  | .ok none => .failure "An unknown error occurred with Groq.".data
  | .ok (some choices) =>
    match choices.head? with
    | none => .success "No response generated".data
    | some choice =>
      match choice.message with
      | none => .success "No response generated".data
      | some msg =>
        match msg.content with
        | none => .success "No response generated".data
        | some content =>
          if (trimList content).isEmpty then .success "No response generated".data
          else .success (trimList content)
  | .axiosError responseMessage message =>
    .failure ("Groq API Error: ".data ++
      (match responseMessage with
       | some r => if r.isEmpty then message else r
       | none => message))
  | .otherThrow => .failure "An unknown error occurred with Groq.".data

/-- Model of `GroqProvider.generateResponse` (`extension_updated.ts:16-35`):
if the stored key is falsy, return the configuration error without performing
any call; otherwise perform exactly one call (the returned counter counts the
outbound `axios.post` invocations) and map its outcome. -/
def GroqProvider.generateResponse (apiKey : Option Str) (outcome : GroqOutcome) :
    ModelResult × Nat :=
  if jsFalsyStr apiKey then (.failure "Error: Groq API Key is not set.".data, 0)
  else (groqMapOutcome outcome, 1)

/-- Outcome of the single Gemini SDK generation call
(`extension_updated.ts:52-55`): the awaited `(await result.response).text()`
either yields a string or the call chain throws. -/
inductive GeminiOutcome
  | ok (text : Str)
  | throwError (message : Str)
deriving DecidableEq

/-- Mapping of the awaited Gemini outcome to the returned string: the text is
returned verbatim (no trim, no content fallback); any thrown error becomes
`` `Gemini API Error: ${(error as Error).message}` ``. -/
def geminiMapOutcome : GeminiOutcome → ModelResult
  | .ok text => .success text
  | .throwError message => .failure ("Gemini API Error: ".data ++ message)

/-- Model of `GeminiProvider.generateResponse` (`extension_updated.ts:45-59`),
with the same call-count convention as the Groq model. -/
def GeminiProvider.generateResponse (apiKey : Option Str) (outcome : GeminiOutcome) :
    ModelResult × Nat :=
  if jsFalsyStr apiKey then (.failure "Error: Gemini API Key is not set.".data, 0)
  else (geminiMapOutcome outcome, 1)

/-- A parsed JSON value, as produced by the model of `JSON.parse`.  Numbers
are kept exactly as the decimal `mantissa * 10 ^ exponent` denoted by their
literal (`JSON.parse` itself rounds to IEEE-754 doubles; no component under
verification computes with the numbers, so the exact-decimal model is used).
Objects keep their member list in source order, including duplicates. -/
inductive Json
  | null
  | bool (b : Bool)
  | num (mantissa : Int) (exponent : Int)
  | str (s : Str)
  | arr (elements : List Json)
  | obj (members : List (Str × Json))

/-- Property access `o[k]` on a parsed object: with duplicate keys in an
object literal, JavaScript keeps the last occurrence. -/
def lookupLast : List (Str × Json) → Str → Option Json
  | [], _ => none
  | (k', v) :: rest, k =>
    match lookupLast rest k with
    | some r => some r
    | none => if k' = k then some v else none

/-- Property access `j.field` as used by the four-field check: `undefined`
(`none`) on missing keys and on non-objects. -/
def jsGet (j : Json) (k : Str) : Option Json :=
  match j with
  | .obj members => lookupLast members k
  | _ => none

/-- JavaScript truthiness of a parsed JSON value (`!x` is its negation):
`null`, `false`, `0` and `""` are falsy; every array and object is truthy. -/
def Json.truthy : Json → Bool
  | .null => false
  | .bool b => b
  | .num m _ => !(m == 0)
  | .str s => !s.isEmpty
  | .arr _ => true
  | .obj _ => true

/-- Truthiness of `j.field`: missing fields are `undefined`, hence falsy. -/
def jsTruthyField (j : Json) (k : Str) : Bool :=
  match jsGet j k with
  | some v => v.truthy
  | none => false

/-- The whitespace accepted by `JSON.parse` between tokens (exactly these
four characters per the JSON grammar). -/
def jsonWs (c : Char) : Bool := c = ' ' || c = '\t' || c = '\n' || c = '\r'

def skipJsonWs (s : Str) : Str := s.dropWhile jsonWs

def isDigitCh (c : Char) : Bool := 48 ≤ c.toNat && c.toNat ≤ 57

def hexValCh (c : Char) : Option Nat :=
  if 48 ≤ c.toNat && c.toNat ≤ 57 then some (c.toNat - 48)
  else if 97 ≤ c.toNat && c.toNat ≤ 102 then some (c.toNat - 97 + 10)
  else if 65 ≤ c.toNat && c.toNat ≤ 70 then some (c.toNat - 65 + 10)
  else none

def spanDigits : Str → Str × Str
  | [] => ([], [])
  | c :: rest =>
    if isDigitCh c then
      let (ds, r) := spanDigits rest
      (c :: ds, r)
    else ([], c :: rest)

def digitsToNat (ds : Str) : Nat :=
  ds.foldl (fun acc c => acc * 10 + (c.toNat - 48)) 0

/-- Parse the body of a JSON string literal after the opening quote,
returning the decoded characters and the input after the closing quote.
Escapes follow the JSON grammar; unescaped control characters are rejected,
as `JSON.parse` rejects them.  (`\uXXXX` is decoded with `Char.ofNat`; lone
surrogates, which Lean's `Char` cannot carry, are not modelled.) -/
def parseStringBody : Str → Except Str (Str × Str)
  | [] => .error "Unterminated string in JSON".data
  | '"' :: rest => .ok ([], rest)
  | '\\' :: 'u' :: a :: b :: c :: d :: rest =>
    match hexValCh a, hexValCh b, hexValCh c, hexValCh d with
    | some va, some vb, some vc, some vd =>
      match parseStringBody rest with
      | .ok (cs, r) => .ok (Char.ofNat (((va * 16 + vb) * 16 + vc) * 16 + vd) :: cs, r)
      | .error e => .error e
    | _, _, _, _ => .error "Bad Unicode escape in JSON".data
  | '\\' :: e :: rest =>
    let dec : Option Char :=
      if e = '"' then some '"'
      else if e = '\\' then some '\\'
      else if e = '/' then some '/'
      else if e = 'b' then some (Char.ofNat 8)
      else if e = 'f' then some (Char.ofNat 12)
      else if e = 'n' then some '\n'
      else if e = 'r' then some '\r'
      else if e = 't' then some '\t'
      else none
    match dec with
    | some ch =>
      match parseStringBody rest with
      | .ok (cs, r) => .ok (ch :: cs, r)
      | .error err => .error err
    | none => .error "Bad escaped character in JSON".data
  | c :: rest =>
    if c.toNat < 32 then .error "Bad control character in JSON string".data
    else
      match parseStringBody rest with
      | .ok (cs, r) => .ok (c :: cs, r)
      | .error e => .error e

/-- Parse a JSON number per the grammar `-? int frac? exp?` (leading zeros
rejected), returning it as mantissa and decimal exponent. -/
def parseNumber (s : Str) : Except Str (Int × Int × Str) :=
  let (neg, s1) : Bool × Str := match s with | '-' :: r => (true, r) | _ => (false, s)
  let (intDs, s2) := spanDigits s1
  match intDs with
  | [] => .error "Unexpected token in JSON number".data
  | d0 :: drest =>
    if d0 = '0' && !drest.isEmpty then .error "Unexpected number in JSON".data
    else
      let (fracDs, s3) : Str × Str :=
        match s2 with
        | '.' :: r => spanDigits r
        | _ => ([], s2)
      if s2 ≠ [] && s2.head? = some '.' && fracDs = [] then
        .error "Unterminated fractional number in JSON".data
      else
        match s3 with
        | 'e' :: r | 'E' :: r =>
          let (esign, r1) : Int × Str :=
            match r with
            | '+' :: r' => (1, r')
            | '-' :: r' => (-1, r')
            | _ => (1, r)
          match spanDigits r1 with
          | ([], _) => .error "Exponent part is missing a number in JSON".data
          | (eds, r2) =>
            .ok ((if neg then -1 else 1) * (digitsToNat (intDs ++ fracDs) : Int),
                 esign * (digitsToNat eds : Int) - (fracDs.length : Int), r2)
        | _ =>
          .ok ((if neg then -1 else 1) * (digitsToNat (intDs ++ fracDs) : Int),
               -(fracDs.length : Int), s3)

mutual
/-- Parse one JSON value (model of the value production used by
`JSON.parse`); recursion is on a fuel counter that `parseJson` seeds
generously, so well-formed inputs never exhaust it. -/
def parseValue : Nat → Str → Except Str (Json × Str)
  | 0, _ => .error "JSON input too deeply nested".data
  | fuel + 1, s =>
    match skipJsonWs s with
    | [] => .error "Unexpected end of JSON input".data
    | c :: rest =>
      if c = 'n' then
        match rest with
        | 'u' :: 'l' :: 'l' :: r => .ok (.null, r)
        | _ => .error "Unexpected token in JSON".data
      else if c = 't' then
        match rest with
        | 'r' :: 'u' :: 'e' :: r => .ok (.bool true, r)
        | _ => .error "Unexpected token in JSON".data
      else if c = 'f' then
        match rest with
        | 'a' :: 'l' :: 's' :: 'e' :: r => .ok (.bool false, r)
        | _ => .error "Unexpected token in JSON".data
      else if c = '"' then
        match parseStringBody rest with
        | .ok (cs, r) => .ok (.str cs, r)
        | .error e => .error e
      else if c = '\x5b' then
        match skipJsonWs rest with
        | '\x5d' :: r => .ok (.arr [], r)
        | r1 => parseElements fuel r1 []
      else if c = '\x7b' then
        match skipJsonWs rest with
        | '\x7d' :: r => .ok (.obj [], r)
        | r1 => parseMembers fuel r1 []
      else if c = '-' || isDigitCh c then
        match parseNumber (c :: rest) with
        | .ok (m, e, r) => .ok (.num m e, r)
        | .error err => .error err
      else .error "Unexpected token in JSON".data

/-- Parse the elements of a nonempty array from the first element on,
accumulating in reverse. -/
def parseElements : Nat → Str → List Json → Except Str (Json × Str)
  | 0, _, _ => .error "JSON input too deeply nested".data
  | fuel + 1, s, acc =>
    match parseValue fuel s with
    | .error e => .error e
    | .ok (v, r) =>
      match skipJsonWs r with
      | ',' :: r' => parseElements fuel r' (v :: acc)
      | '\x5d' :: r' => .ok (.arr (v :: acc).reverse, r')
      | _ => .error "Expected comma or closing bracket after array element in JSON".data

/-- Parse the members of a nonempty object from the first member on,
accumulating in reverse. -/
def parseMembers : Nat → Str → List (Str × Json) → Except Str (Json × Str)
  | 0, _, _ => .error "JSON input too deeply nested".data
  | fuel + 1, s, acc =>
    match skipJsonWs s with
    | '"' :: rest =>
      match parseStringBody rest with
      | .error e => .error e
      | .ok (key, r1) =>
        match skipJsonWs r1 with
        | ':' :: r2 =>
          match parseValue fuel r2 with
          | .error e => .error e
          | .ok (v, r3) =>
            match skipJsonWs r3 with
            | ',' :: r4 => parseMembers fuel r4 ((key, v) :: acc)
            | '\x7d' :: r4 => .ok (.obj ((key, v) :: acc).reverse, r4)
            | _ => .error "Expected comma or closing brace after object member in JSON".data
        | _ => .error "Expected colon after object key in JSON".data
    | _ => .error "Expected string key in JSON object".data
end

/-- Model of `JSON.parse`: parse one value and insist that only whitespace
follows. -/
def parseJson (s : Str) : Except Str Json :=
  match parseValue (2 * s.length + 4) s with
  | .error e => .error e
  | .ok (j, r) =>
    if (skipJsonWs r).isEmpty then .ok j
    else .error "Unexpected non-whitespace character after JSON data".data

/-- Model of the `cleanedResponse` computation in `analyzeCodePatterns`
(`extension_updated.ts:592-595`):
`response.replace(/```json\s*/g, '').replace(/```\s*/g, '').trim()`. -/
def cleanAnalysis (raw : Str) : Str :=
  trimList (removeAll true "```".data (removeAll true "```json".data raw))

/-- Model of `analyzeCodePatterns` after the provider call
(`extension_updated.ts:589-604`): clean the response, validate that it parses
as JSON, and return the **cleaned text** on success; a parse failure is
thrown as `` `Invalid JSON response from LLM: ${message}` `` (which the
`detectPatterns` command handler surfaces via an error notification). -/
def analyzeCodePatterns (response : Str) : Except Str Str :=
  let cleanedResponse := cleanAnalysis response
  match parseJson cleanedResponse with
  | .ok _ => .ok cleanedResponse
  | .error diag => .error ("Invalid JSON response from LLM: ".data ++ diag)

/-- The four top-level fields of an accepted analysis record, exactly as the
webview reads them off the parsed JSON (the TypeScript interface is erased at
runtime, so the field values are arbitrary JSON). -/
structure PatternAnalysis where
  patterns : Json
  antiPatterns : Json
  recommendations : Json
  performance_metrics : Json

/-- A rejected analysis: the error message shown in the error panel heading
and the raw text the panel preserves in its collapsible section. -/
structure AnalysisError where
  message : Str
  raw : Str

/-- The message of the four-field validation failure
(`extension_updated.ts:617`). -/
def missingPropsMsg : Str := "Missing required properties in analysis result".data

/-- Model of the parse-and-validate part of `getPatternAnalysisWebviewContent`
(`extension_updated.ts:608-618` and its catch branch at 748-764): trim the
received text, `JSON.parse` it, and require each of `patterns`,
`antiPatterns`, `recommendations`, `performance_metrics` to be truthy
(`!analysis.patterns || ...` throws); any failure lands in the catch branch,
whose error document embeds the failure message and the received raw text. -/
def checkPatternAnalysis (analysisResult : Str) : Except AnalysisError PatternAnalysis :=
  let cleanedResult := trimList analysisResult
  match parseJson cleanedResult with
  | .error diag => .error ⟨diag, analysisResult⟩
  | .ok j =>
    if jsTruthyField j "patterns".data && jsTruthyField j "antiPatterns".data &&
        jsTruthyField j "recommendations".data &&
        jsTruthyField j "performance_metrics".data then
      .ok ⟨(jsGet j "patterns".data).getD .null,
           (jsGet j "antiPatterns".data).getD .null,
           (jsGet j "recommendations".data).getD .null,
           (jsGet j "performance_metrics".data).getD .null⟩
    else .error ⟨missingPropsMsg, analysisResult⟩

/-- The analysis-mode response normalizer the spec describes as one
component: fence-strip and trim (`analyzeCodePatterns`), then parse and check
the four required fields (`getPatternAnalysisWebviewContent`).  In the wired
command flow a parse failure is thrown inside `analyzeCodePatterns` and the
webview never runs; the composite routes both failure kinds through the
webview's error branch, which is where the checked text and the diagnostic
are preserved for display.  (On malformed input the wired flow shows the same
diagnostic, prefixed `Invalid JSON response from LLM: `, in a notification
instead.) -/
def normalizeAnalysis (raw : Str) : Except AnalysisError PatternAnalysis :=
  checkPatternAnalysis (cleanAnalysis raw)

/-- First escaping pass of the error panel: `analysisResult.replace(/</g, '&lt;')`. -/
def escLt (s : Str) : Str := s.flatMap fun c => if c = '<' then "&lt;".data else [c]

/-- Second escaping pass: `.replace(/>/g, '&gt;')` on the first pass's output. -/
def escGt (s : Str) : Str := s.flatMap fun c => if c = '>' then "&gt;".data else [c]

/-- Model of the HTML escaping applied to the raw response embedded in the
error panel's collapsible section (`extension_updated.ts:756-758`). -/
def escapeAngles (s : Str) : Str := escGt (escLt s)

/-- The text actually inserted into the error document's `<pre>` block for a
rejected analysis. -/
def errorPanelRaw (e : AnalysisError) : Str := escapeAngles e.raw

/-- The four-field truthiness check of the webview, as one Boolean. -/
def fourFieldsTruthy (j : Json) : Bool :=
  jsTruthyField j "patterns".data && jsTruthyField j "antiPatterns".data &&
    jsTruthyField j "recommendations".data && jsTruthyField j "performance_metrics".data

/-- A well-formed analysis response whose four top-level fields are all
present, but whose `patterns` field is `null`. -/
def analysisNullPatterns : Str :=
  ("\x7b\"patterns\": null, \"antiPatterns\": [], \"recommendations\": [], " ++
   "\"performance_metrics\": \x7b\x7d\x7d").data

/-- The JSON value `analysisNullPatterns` parses to. -/
def analysisNullParsed : Json :=
  .obj [("patterns".data, .null), ("antiPatterns".data, .arr []),
        ("recommendations".data, .arr []), ("performance_metrics".data, .obj [])]

/-- The fenced wrapping the model is told not to emit, as the cleanup sees
it: an opening ```` ```json ```` fence line before the body and a closing
```` ``` ```` fence line after it. -/
def wrapJsonFence (body : Str) : Str :=
  "```json\n".data ++ body ++ "\n```".data

/-- A fenced analysis blob whose `patterns` array holds the string value
```` "```" ````: all four fields present and truthy, and the blob's own JSON
is well-formed. -/
def analysisFenceInString : Str :=
  ("\x7b\"patterns\": [\"```\"], \"antiPatterns\": [], \"recommendations\": [], " ++
   "\"performance_metrics\": \x7b\x7d\x7d").data

/-- The JSON value `analysisFenceInString` parses to. -/
def analysisFenceInStringParsed : Json :=
  .obj [("patterns".data, .arr [.str "```".data]), ("antiPatterns".data, .arr []),
        ("recommendations".data, .arr []), ("performance_metrics".data, .obj [])]

/-- An analysis blob with an out-of-range `confidence`, a negative
`confidence`, a `severity` outside the three allowed values, and a
`performance_impact` outside them too. -/
def analysisRich : Str :=
  ("\x7b\"patterns\": [\x7b\"name\": \"Observer\", \"confidence\": 2.5\x7d, " ++
   "\x7b\"name\": \"Singleton\", \"confidence\": -0.75\x7d], " ++
   "\"antiPatterns\": [\x7b\"issue\": \"God Object\", \"severity\": \"catastrophic\"\x7d], " ++
   "\"recommendations\": [\x7b\"title\": \"t\", \"complexity\": \"low\", " ++
   "\"performance_impact\": \"ultra\"\x7d], " ++
   "\"performance_metrics\": \x7b\"time_complexity\": \"O(n^2)\", " ++
   "\"space_complexity\": \"O(1)\", \"potential_bottlenecks\": [\"a\", \"b\"]\x7d\x7d").data

/-- The record `analysisRich` normalizes to: every value exactly as written,
in order. -/
def analysisRichRecord : PatternAnalysis :=
  ⟨.arr [.obj [("name".data, .str "Observer".data), ("confidence".data, .num 25 (-1))],
         .obj [("name".data, .str "Singleton".data), ("confidence".data, .num (-75) (-2))]],
   .arr [.obj [("issue".data, .str "God Object".data),
               ("severity".data, .str "catastrophic".data)]],
   .arr [.obj [("title".data, .str "t".data), ("complexity".data, .str "low".data),
               ("performance_impact".data, .str "ultra".data)]],
   .obj [("time_complexity".data, .str "O(n^2)".data),
         ("space_complexity".data, .str "O(1)".data),
         ("potential_bottlenecks".data, .arr [.str "a".data, .str "b".data])]⟩

theorem dropWhile_length_le (p : α → Bool) : ∀ l : List α, (l.dropWhile p).length ≤ l.length
  | [] => Nat.le_refl _
  | a :: l => by
    by_cases h : p a
    · simp only [List.dropWhile_cons_of_pos h, List.length_cons]
      exact Nat.le_succ_of_le (dropWhile_length_le p l)
    · simp [List.dropWhile_cons_of_neg h]

theorem afterMatch_length_le (absorb : Bool) (pat rest : Str) :
    (afterMatch absorb pat rest).length ≤ rest.length := by
  unfold afterMatch
  have h2 : (rest.drop (pat.length - 1)).length ≤ rest.length := by
    simp [List.length_drop]
  split
  · exact Nat.le_trans (dropWhile_length_le _ _) h2
  · exact h2

theorem removeAllF_nil_input (absorb : Bool) (pat : Str) (fuel : Nat) :
    removeAllF absorb pat fuel [] = [] := by
  cases fuel <;> rfl

theorem removeAllF_eq_of_le (absorb : Bool) (pat : Str) :
    ∀ (fuel₁ : Nat) (fuel₂ : Nat) (s : Str), s.length ≤ fuel₁ → s.length ≤ fuel₂ →
      removeAllF absorb pat fuel₁ s = removeAllF absorb pat fuel₂ s := by
  intro fuel₁
  induction fuel₁ with
  | zero =>
    intro fuel₂ s h1 _
    have : s = [] := List.eq_nil_of_length_eq_zero (Nat.le_zero.mp h1)
    subst this
    rw [removeAllF_nil_input, removeAllF_nil_input]
  | succ f ih =>
    intro fuel₂ s h1 h2
    match s, fuel₂ with
    | [], fuel₂ => rw [removeAllF_nil_input, removeAllF_nil_input]
    | c :: rest, 0 => simp at h2
    | c :: rest, g + 1 =>
      simp only [removeAllF]
      simp only [List.length_cons] at h1 h2
      by_cases hm : List.isPrefixOf pat (c :: rest)
      · simp only [if_pos hm]
        have hlen : (afterMatch absorb pat rest).length ≤ rest.length :=
          afterMatch_length_le absorb pat rest
        exact ih g _ (by omega) (by omega)
      · simp only [if_neg hm]
        rw [ih g rest (by omega) (by omega)]

theorem removeAll_nil (absorb : Bool) (pat : Str) : removeAll absorb pat [] = [] := rfl

/-- Defining equation of `removeAll` on a nonempty input. -/
theorem removeAll_cons (absorb : Bool) (pat : Str) (c : Char) (rest : Str) :
    removeAll absorb pat (c :: rest) =
      if List.isPrefixOf pat (c :: rest) then removeAll absorb pat (afterMatch absorb pat rest)
      else c :: removeAll absorb pat rest := by
  show removeAllF absorb pat (rest.length + 1) (c :: rest) = _
  simp only [removeAllF]
  by_cases hm : List.isPrefixOf pat (c :: rest)
  · simp only [if_pos hm]
    exact removeAllF_eq_of_le absorb pat rest.length _ _
      (afterMatch_length_le absorb pat rest) (Nat.le_refl _)
  · simp only [if_neg hm]
    rfl

example : normalizeDiagram "```mermaid\ngraph TD\nA-->B\n```".data
    = .ok "graph TD\nA-->B".data := rfl

example : normalizeDiagram "graph XY\nA-->B".data = .error invalidDiagramMsg := rfl

theorem leadCount_nil (c : Char) : leadCount c [] = 0 := rfl

theorem leadCount_cons_self (c : Char) (t : Str) :
    leadCount c (c :: t) = leadCount c t + 1 := by simp [leadCount]

theorem leadCount_cons_ne (c a : Char) (t : Str) (h : a ≠ c) :
    leadCount c (a :: t) = 0 := by simp [leadCount, h]

theorem leadCount_of_prefix_one {c : Char} {l : Str} (h : [c] <+: l) :
    1 ≤ leadCount c l := by
  match l with
  | [] => simp [ List.prefix_nil] at h
  | a :: t =>
    rw [ List.cons_prefix_cons] at h
    rw [← h.1, leadCount_cons_self]
    omega

theorem leadCount_of_prefix_two {c : Char} {l : Str} (h : [c, c] <+: l) :
    2 ≤ leadCount c l := by
  match l with
  | [] => simp [ List.prefix_nil] at h
  | a :: t =>
    rw [ List.cons_prefix_cons] at h
    rw [← h.1, leadCount_cons_self]
    have := leadCount_of_prefix_one h.2
    omega

/-- A pass of `removeAll` whose pattern occurs nowhere in the input leaves the
input unchanged. -/
theorem removeAll_eq_self_of_no_occurrence (absorb : Bool) {pat : Str} :
    ∀ s : Str, ¬ pat <:+: s → removeAll absorb pat s = s := by
  suffices H : ∀ (n : Nat) (s : Str), s.length ≤ n → ¬ pat <:+: s →
      removeAll absorb pat s = s by
    exact fun s => H s.length s (Nat.le_refl _)
  intro n
  induction n with
  | zero =>
    intro s hs _
    have : s = [] := List.eq_nil_of_length_eq_zero (Nat.le_zero.mp hs)
    subst this; rfl
  | succ n ih =>
    intro s hs hocc
    match s with
    | [] => rfl
    | c :: rest =>
      rw [removeAll_cons]
      have hm : ¬ List.isPrefixOf pat (c :: rest) := by
        intro hpre
        exact hocc (List.IsPrefix.isInfix ( List.isPrefixOf_iff_prefix.mp hpre))
      rw [if_neg hm]
      have : ¬ pat <:+: rest := fun h => hocc ( List.infix_cons_iff.mpr (Or.inr h))
      simp only [List.length_cons] at hs
      rw [ih rest (by omega) this]

theorem not_run_infix_nil (c : Char) : ¬ [c, c, c] <:+: ([] : Str) := by
  intro h
  have := List.IsInfix.length_le h
  simp at this

/-- When the input does not start with `c`, a `removeAll` pass for the run
pattern `[c, c, c]` keeps the head character, so the output has no leading
copies of `c`. -/
theorem removeAll_run_leadCount_zero (absorb : Bool) (c a : Char) (t : Str)
    (h : a ≠ c) : leadCount c (removeAll absorb [c, c, c] (a :: t)) = 0 := by
  have hm : ¬ List.isPrefixOf [c, c, c] (a :: t) := by
    simp only [ List.isPrefixOf_iff_prefix, List.cons_prefix_cons, not_and]
    intro hca
    exact (h hca.symm).elim
  rw [removeAll_cons, if_neg hm, leadCount_cons_ne c a _ h]

/-- After a pass of `removeAll` with the three-character run pattern
`[c, c, c]`, no occurrence of that run remains (and at most two copies of `c`
survive at the head).  This is the precise sense in which the fence-stripping
passes remove every occurrence of the delimiter: deleting a match can abut
leftover characters, but never so as to recreate a run of three. -/
theorem removeAll_run_free (absorb : Bool) (c : Char) :
    ∀ s : Str, ¬ [c, c, c] <:+: removeAll absorb [c, c, c] s ∧
      leadCount c (removeAll absorb [c, c, c] s) ≤ 2 := by
  suffices H : ∀ (n : Nat) (s : Str), s.length ≤ n →
      ¬ [c, c, c] <:+: removeAll absorb [c, c, c] s ∧
        leadCount c (removeAll absorb [c, c, c] s) ≤ 2 by
    exact fun s => H s.length s (Nat.le_refl _)
  intro n
  induction n with
  | zero =>
    intro s hs
    have : s = [] := List.eq_nil_of_length_eq_zero (Nat.le_zero.mp hs)
    subst this
    exact ⟨not_run_infix_nil c, by simp [removeAll_nil, leadCount]⟩
  | succ n ih =>
    intro s hs
    match s with
    | [] => exact ⟨not_run_infix_nil c, by simp [removeAll_nil, leadCount]⟩
    | a :: t =>
      simp only [List.length_cons] at hs
      by_cases hm : List.isPrefixOf [c, c, c] (a :: t)
      · rw [removeAll_cons, if_pos hm]
        exact ih (afterMatch absorb [c, c, c] t)
          (Nat.le_trans (afterMatch_length_le absorb [c, c, c] t) (by omega))
      · rw [removeAll_cons, if_neg hm]
        by_cases hac : a = c
        · subst hac
          have hm2 : ¬ List.isPrefixOf [a, a] t := by
            simpa [ List.isPrefixOf] using hm
          have hlead : leadCount a (removeAll absorb [a, a, a] t) ≤ 1 := by
            match t with
            | [] => simp [removeAll_nil, leadCount]
            | b :: u =>
              by_cases hba : b = a
              · subst hba
                have hm3 : ¬ List.isPrefixOf [b] u := by
                  simpa [ List.isPrefixOf] using hm2
                have hmt : ¬ List.isPrefixOf [b, b, b] (b :: u) := by
                  match u with
                  | [] => simp [ List.isPrefixOf]
                  | d :: v =>
                    have hd : ¬ (b = d) := by
                      simpa [ List.isPrefixOf] using hm3
                    simp [ List.isPrefixOf, hd]
                rw [removeAll_cons, if_neg hmt, leadCount_cons_self]
                have hu : leadCount b (removeAll absorb [b, b, b] u) = 0 := by
                  match u with
                  | [] => simp [removeAll_nil, leadCount]
                  | d :: v =>
                    have hd : ¬ (b = d) := by
                      simpa [ List.isPrefixOf] using hm3
                    exact removeAll_run_leadCount_zero absorb b d v (fun hh => hd hh.symm)
                omega
              · have hmb : ¬ List.isPrefixOf [a, a, a] (b :: u) := by
                  simp only [ List.isPrefixOf_iff_prefix, List.cons_prefix_cons, not_and]
                  intro hab
                  exact (hba hab.symm).elim
                rw [removeAll_cons, if_neg hmb, leadCount_cons_ne a b _ hba]
                omega
          refine ⟨?_, ?_⟩
          · intro hinf
            rcases List.infix_cons_iff.mp hinf with hpre | htail
            · rw [ List.cons_prefix_cons] at hpre
              have := leadCount_of_prefix_two hpre.2
              omega
            · exact (ih t (by omega)).1 htail
          · rw [leadCount_cons_self]
            omega
        · refine ⟨?_, ?_⟩
          · intro hinf
            rcases List.infix_cons_iff.mp hinf with hpre | htail
            · rw [ List.cons_prefix_cons] at hpre
              exact hac hpre.1.symm
            · exact (ih t (by omega)).1 htail
          · rw [leadCount_cons_ne c a _ hac]
            omega

/-- The trimmed text is a contiguous segment of the original. -/
theorem trimList_isInfix (s : Str) : trimList s <:+: s := by
  obtain ⟨r, hr⟩ := List.rdropWhile_prefix isJsWs (s.dropWhile isJsWs)
  obtain ⟨u, hu⟩ := List.dropWhile_suffix (l := s) isJsWs
  refine ⟨u, r, ?_⟩
  show u ++ (( s.dropWhile isJsWs).rdropWhile isJsWs) ++ r = s
  rw [List.append_assoc, hr, hu]

theorem dropWhile_rdropWhile_comm (p : α → Bool) (l : List α) :
    (( l.dropWhile p).rdropWhile p).dropWhile p = ( l.dropWhile p).rdropWhile p := by
  cases hT : ( l.dropWhile p).rdropWhile p with
  | nil => rfl
  | cons a t =>
    obtain ⟨r, hr⟩ := List.rdropWhile_prefix p ( l.dropWhile p)
    rw [hT] at hr
    have hhead : ( l.dropWhile p).head? = some a := by
      rw [← hr]; rfl
    have h0 := List.head?_dropWhile_not p l
    simp only [hhead] at h0
    exact List.dropWhile_cons_of_neg (by simp [h0])

/-- JavaScript's `trim` is idempotent. -/
theorem trimList_idem (s : Str) : trimList (trimList s) = trimList s := by
  show ((( s.dropWhile isJsWs).rdropWhile isJsWs).dropWhile isJsWs).rdropWhile isJsWs = _
  rw [dropWhile_rdropWhile_comm, List.rdropWhile_idempotent]
  rfl

/-- An already-trimmed string (anything in the image of `trimList`) is fixed
by `trimList`. -/
theorem trimList_of_trimmed {s t : Str} (h : s = trimList t) : trimList s = s := by
  rw [h, trimList_idem]

theorem backtick_fence_eq_run : "```".data = [btChar, btChar, btChar] := by decide

/-- Generic form of the fence-freeness of the two-pass-plus-trim cleanups:
after the second pass removes the bare delimiter, no occurrence of ```` ``` ````
survives trimming. -/
theorem cleanup_no_fence (absorb : Bool) (pat1 : Str) (raw : Str) :
    ¬ "```".data <:+:
      trimList (removeAll absorb "```".data (removeAll absorb pat1 raw)) := by
  intro h
  have h2 : "```".data <:+: removeAll absorb "```".data (removeAll absorb pat1 raw) :=
    List.IsInfix.trans h (trimList_isInfix _)
  rw [backtick_fence_eq_run] at h2
  exact (removeAll_run_free absorb btChar (removeAll absorb pat1 raw)).1 h2

/-- A string free of bare fences is also free of any tagged fence
`"``` " ++ tag`, since the latter starts with the former. -/
theorem no_tagged_fence_of_no_fence {s tag : Str}
    (hpre : "```".data <+: tag) (h : ¬ "```".data <:+: s) : ¬ tag <:+: s :=
  fun htag => h (List.IsInfix.trans (List.IsPrefix.isInfix hpre) htag)

/-- C1: `normalizeDiagram` (the diagram sanitization in the
`generateWorkflowDiagram` handler) removes every occurrence of the opening
fence delimiter ```` ```mermaid ```` and the bare delimiter ```` ``` ```` from
the raw text, trims leading and trailing whitespace, and succeeds if and only
if the remaining text starts with the literal prefix `graph TD` or `graph LR`;
otherwise it yields the validation error and nothing is rendered.  In
particular the fenced `graph TD` example normalizes to the success value
`"graph TD\nA-->B"`, and `"graph XY\nA-->B"` is rejected. -/
theorem C1_diagram_normalization :
    (∀ raw : Str,
        ¬ "```mermaid".data <:+: sanitizeDiagram raw ∧
        ¬ "```".data <:+: sanitizeDiagram raw ∧
        ((normalizeDiagram raw).isOk = true ↔
          (List.isPrefixOf "graph TD".data (sanitizeDiagram raw) = true ∨
           List.isPrefixOf "graph LR".data (sanitizeDiagram raw) = true)) ∧
        (∀ s : Str, normalizeDiagram raw = .ok s →
          s = sanitizeDiagram raw ∧ trimList s = s) ∧
        (∀ s : Str, ¬ diagramValid (sanitizeDiagram raw) = true →
          normalizeDiagram raw = .error invalidDiagramMsg ∧ normalizeDiagram raw ≠ .ok s)) ∧
    normalizeDiagram "```mermaid\ngraph TD\nA-->B\n```".data = .ok "graph TD\nA-->B".data ∧
    normalizeDiagram "graph XY\nA-->B".data = .error invalidDiagramMsg := by
  refine ⟨fun raw => ⟨?_, ?_, ?_, ?_, ?_⟩, rfl, rfl⟩
  · exact no_tagged_fence_of_no_fence (by decide) (cleanup_no_fence false "```mermaid".data raw)
  · exact cleanup_no_fence false "```mermaid".data raw
  · unfold normalizeDiagram
    by_cases h : diagramValid (sanitizeDiagram raw) = true
    · rw [if_pos h]
      unfold diagramValid at h
      rw [Bool.or_eq_true] at h
      exact iff_of_true rfl h
    · rw [if_neg h]
      unfold diagramValid at h
      rw [Bool.or_eq_true] at h
      exact iff_of_false (fun hh => nomatch hh) h
  · intro s hok
    unfold normalizeDiagram at hok
    by_cases h : diagramValid (sanitizeDiagram raw) = true
    · simp only [h, if_true, Except.ok.injEq] at hok
      subst hok
      exact ⟨rfl, trimList_of_trimmed rfl⟩
    · simp [h] at hok
  · intro s hnv
    unfold normalizeDiagram
    simp [hnv]

/-- Witness for `C1_diagram_normalization`: its hypothesis-bearing conjuncts
discharged at the concrete fenced example. -/
theorem C1_diagram_normalization_witness :
    "graph TD\nA-->B".data = sanitizeDiagram "```mermaid\ngraph TD\nA-->B\n```".data ∧
      trimList "graph TD\nA-->B".data = "graph TD\nA-->B".data :=
  (C1_diagram_normalization.1 "```mermaid\ngraph TD\nA-->B\n```".data).2.2.2.1
    "graph TD\nA-->B".data rfl

theorem toNat_ofNat_valid {n : Nat} (h : n < 55296) : (Char.ofNat n).toNat = n := by
  rw [Char.ofNat, dif_pos (Or.inl h)]
  show (UInt32.ofNatCore n _).toNat = n
  simp [UInt32.ofNatCore, UInt32.toNat]

theorem lowerChar_idem (c : Char) : lowerChar (lowerChar c) = lowerChar c := by
  by_cases h : 65 ≤ c.toNat ∧ c.toNat ≤ 90
  · have h1 : lowerChar c = Char.ofNat (c.toNat + 32) := by
      simp only [lowerChar, if_pos h]
    have ht : (Char.ofNat (c.toNat + 32)).toNat = c.toNat + 32 :=
      toNat_ofNat_valid (by omega)
    rw [h1]
    simp only [lowerChar, ht]
    rw [if_neg (by omega)]
  · have h1 : lowerChar c = c := by simp only [lowerChar, if_neg h]
    rw [h1, h1]

theorem toLowerStr_idem (s : Str) : toLowerStr (toLowerStr s) = toLowerStr s := by
  induction s with
  | nil => rfl
  | cons a t ih =>
    simp only [toLowerStr, List.map_cons] at ih ⊢
    rw [lowerChar_idem, ih]

/-- C3: for every identifier string the Provider Selector returns an adapter
and never fails; identifiers are matched case-insensitively against
`{groq, gemini}`, every case variant of a known identifier resolves to the
same adapter as its lowercase form, and every unrecognized identifier,
including the empty string, resolves to the default adapter (Groq). -/
theorem C3_provider_selector :
    (∀ t : Str, LLMFactory.getProvider t = LLMFactory.getProvider (toLowerStr t)) ∧
    (∀ t : Str, toLowerStr t ≠ "groq".data → toLowerStr t ≠ "gemini".data →
      LLMFactory.getProvider t = .groq) ∧
    (∀ t : Str, toLowerStr t = "groq".data → LLMFactory.getProvider t = .groq) ∧
    (∀ t : Str, toLowerStr t = "gemini".data → LLMFactory.getProvider t = .gemini) ∧
    LLMFactory.getProvider [] = .groq ∧
    LLMFactory.getProvider "GROQ".data = LLMFactory.getProvider "groq".data ∧
    LLMFactory.getProvider "Groq".data = LLMFactory.getProvider "groq".data ∧
    LLMFactory.getProvider "GEMINI".data = LLMFactory.getProvider "gemini".data ∧
    LLMFactory.getProvider "Gemini".data = LLMFactory.getProvider "gemini".data ∧
    LLMFactory.getProvider "groq".data = .groq ∧
    LLMFactory.getProvider "gemini".data = .gemini := by
  refine ⟨?_, ?_, ?_, ?_, rfl, by decide, by decide, by decide, by decide, rfl, rfl⟩
  · intro t
    simp only [LLMFactory.getProvider, toLowerStr_idem]
  · intro t h1 h2
    simp only [LLMFactory.getProvider, if_neg h1, if_neg h2]
  · intro t h1
    simp only [LLMFactory.getProvider, if_pos h1]
  · intro t h2
    have h1 : toLowerStr t ≠ "groq".data := by
      intro hq; rw [hq] at h2; exact absurd h2 (by decide)
    simp only [LLMFactory.getProvider, if_neg h1, if_pos h2]

/-- Witness for `C3_provider_selector`: the unrecognized identifier `llama`
and the mixed-case identifier `GrOq` resolved concretely. -/
theorem C3_provider_selector_witness :
    LLMFactory.getProvider "llama".data = ProviderKind.groq ∧
      LLMFactory.getProvider "GrOq".data = ProviderKind.groq :=
  ⟨C3_provider_selector.2.1 "llama".data (by decide) (by decide),
   C3_provider_selector.2.2.1 "GrOq".data (by decide)⟩

/-- C4 counterexample: the claim fails on the code in two places, both
exhibited at concrete inputs.  A present-but-empty credential (`some ""`) is
treated as absent — the adapter issues zero outbound calls instead of the one
the claim requires for a present credential — and the failure message
carried in that case is `"Error: Groq API Key is not set."`, not the claimed
`"Groq API Key is not set."`. -/
theorem C4_counterexample :
    GroqProvider.generateResponse (some []) (.ok (some []))
        = (.failure "Error: Groq API Key is not set.".data, 0) ∧
      GeminiProvider.generateResponse (some []) (.ok [])
        = (.failure "Error: Gemini API Key is not set.".data, 0) ∧
      "Error: Groq API Key is not set.".data ≠ "Groq API Key is not set.".data ∧
      "Error: Gemini API Key is not set.".data ≠ "Gemini API Key is not set.".data :=
  ⟨rfl, rfl, by decide, by decide⟩

/-- C4 (amended): for every adapter and prompt outcome, if the stored
credential is absent **or empty** (JS-falsy), `generateResponse` returns the
failure `"Error: <Provider> API Key is not set."` and performs zero network
calls; otherwise it issues exactly one outbound call and never retries. -/
theorem C4_credential_gate :
    (∀ (key : Option Str) (outcome : GroqOutcome), jsFalsyStr key = true →
      GroqProvider.generateResponse key outcome
        = (.failure "Error: Groq API Key is not set.".data, 0)) ∧
    (∀ (key : Option Str) (outcome : GroqOutcome), jsFalsyStr key = false →
      (GroqProvider.generateResponse key outcome).2 = 1) ∧
    (∀ (key : Option Str) (outcome : GeminiOutcome), jsFalsyStr key = true →
      GeminiProvider.generateResponse key outcome
        = (.failure "Error: Gemini API Key is not set.".data, 0)) ∧
    (∀ (key : Option Str) (outcome : GeminiOutcome), jsFalsyStr key = false →
      (GeminiProvider.generateResponse key outcome).2 = 1) := by
  refine ⟨?_, ?_, ?_, ?_⟩ <;> intro key outcome h <;>
    simp [GroqProvider.generateResponse, GeminiProvider.generateResponse, h]

/-- Witness for `C4_credential_gate` at concrete inputs: no key (zero calls)
and key `"k"` (one call). -/
theorem C4_credential_gate_witness :
    GroqProvider.generateResponse none .otherThrow
        = (.failure "Error: Groq API Key is not set.".data, 0) ∧
      (GeminiProvider.generateResponse (some "k".data) (.ok "hi".data)).2 = 1 :=
  ⟨C4_credential_gate.1 none .otherThrow rfl,
   C4_credential_gate.2.2.2 (some "k".data) (.ok "hi".data) rfl⟩

/-- C5 counterexample: a non-Axios fault inside the Groq adapter is captured
as the failure message `"An unknown error occurred with Groq."`, which does
not start with the provider's name — the claimed "message prefixed with the
provider's name" is false (the name occurs at the end). -/
theorem C5_counterexample :
    (GroqProvider.generateResponse (some "k".data) .otherThrow).1
        = .failure "An unknown error occurred with Groq.".data ∧
      ¬ "Groq".data <+: "An unknown error occurred with Groq.".data :=
  ⟨rfl, by decide⟩

/-- C5 (amended): `generateResponse` never throws — every failure mode
(missing credential, transport error, provider-reported error payload,
non-Axios fault) is captured at the adapter boundary and returned as a
`Failure` whose human-readable message **contains** the provider's name
(though not always as a prefix). -/
theorem C5_failures_named :
    (∀ (key : Option Str) (outcome : GroqOutcome) (m : Str),
      (GroqProvider.generateResponse key outcome).1 = .failure m →
        "Groq".data <:+: m) ∧
    (∀ (key : Option Str) (outcome : GeminiOutcome) (m : Str),
      (GeminiProvider.generateResponse key outcome).1 = .failure m →
        "Gemini".data <:+: m) ∧
    (∀ (key : Option Str) (rm : Option Str) (em : Str), jsFalsyStr key = false →
      ∃ m : Str, (GroqProvider.generateResponse key (.axiosError rm em)).1 = .failure m) ∧
    (∀ key : Option Str, jsFalsyStr key = false →
      ∃ m : Str, (GroqProvider.generateResponse key .otherThrow).1 = .failure m) ∧
    (∀ (key : Option Str) (em : Str), jsFalsyStr key = false →
      ∃ m : Str, (GeminiProvider.generateResponse key (.throwError em)).1 = .failure m) := by
  refine ⟨?_, ?_, ?_, ?_, ?_⟩
  · intro key outcome m h
    by_cases hk : jsFalsyStr key = true
    · simp only [GroqProvider.generateResponse, hk, if_true] at h
      cases h
      decide
    · simp only [GroqProvider.generateResponse, hk, if_false,
        Bool.not_eq_true] at h
      rw [if_neg (by simp [Bool.not_eq_true] at hk; simp [hk])] at h
      match outcome with
      | .ok none => cases h; decide
      | .otherThrow => cases h; decide
      | .axiosError rm em =>
        simp only [groqMapOutcome, ModelResult.failure.injEq] at h
        subst h
        exact List.IsPrefix.isInfix
          (List.IsPrefix.trans (by decide) (List.prefix_append _ _))
      | .ok (some choices) =>
        exfalso
        simp only [groqMapOutcome] at h
        repeat' split at h
        all_goals cases h
  · intro key outcome m h
    by_cases hk : jsFalsyStr key = true
    · simp only [GeminiProvider.generateResponse, hk, if_true] at h
      cases h
      decide
    · simp only [GeminiProvider.generateResponse] at h
      rw [if_neg (by simp [Bool.not_eq_true] at hk; simp [hk])] at h
      match outcome with
      | .ok t => cases h
      | .throwError em =>
        simp only [geminiMapOutcome, ModelResult.failure.injEq] at h
        subst h
        exact List.IsPrefix.isInfix
          (List.IsPrefix.trans (by decide) (List.prefix_append _ _))
  · intro key rm em hk
    have hre : GroqProvider.generateResponse key (.axiosError rm em)
        = (groqMapOutcome (.axiosError rm em), 1) := by
      simp [GroqProvider.generateResponse, hk]
    exact ⟨_, by rw [hre]; rfl⟩
  · intro key hk
    have hre : GroqProvider.generateResponse key .otherThrow
        = (groqMapOutcome .otherThrow, 1) := by
      simp [GroqProvider.generateResponse, hk]
    exact ⟨_, by rw [hre]; rfl⟩
  · intro key em hk
    have hre : GeminiProvider.generateResponse key (.throwError em)
        = (geminiMapOutcome (.throwError em), 1) := by
      simp [GeminiProvider.generateResponse, hk]
    exact ⟨_, by rw [hre]; rfl⟩

/-- Witness for `C5_failures_named`: the Axios-error failure message of a
concrete Groq call contains `"Groq"`. -/
theorem C5_failures_named_witness :
    "Groq".data <:+: "Groq API Error: boom".data :=
  C5_failures_named.1 (some "k".data) (.axiosError none "boom".data)
    "Groq API Error: boom".data rfl

/-- C6 counterexample: the Gemini adapter does not trim the successful
response text — `" x "` is returned verbatim, not as `"x"` — so the claim's
"for every adapter ... trimmed" is false (and Gemini likewise has no
`"No response generated"` fallback: the empty text is returned as an empty
success). -/
theorem C6_counterexample :
    GeminiProvider.generateResponse (some "k".data) (.ok " x ".data)
        = (.success " x ".data, 1) ∧
      trimList " x ".data ≠ " x ".data ∧
      GeminiProvider.generateResponse (some "k".data) (.ok [])
        = (.success [], 1) :=
  ⟨rfl, by decide, rfl⟩

/-- C6 (amended): the **Groq** adapter returns the primary output field
trimmed as a success, and returns `Success("No response generated")` when the
content field is absent anywhere along `choices[0]?.message?.content` or
trims to the empty (falsy) string — never a failure; the **Gemini** adapter
returns the response text verbatim, with no trimming and no content
fallback. -/
theorem C6_success_mapping :
    (∀ (key : Option Str) (content : Str), jsFalsyStr key = false →
      GroqProvider.generateResponse key
          (.ok (some [⟨some ⟨some content⟩⟩]))
        = (.success (if (trimList content).isEmpty then "No response generated".data
            else trimList content), 1)) ∧
    (∀ key : Option Str, jsFalsyStr key = false →
      GroqProvider.generateResponse key (.ok (some [⟨some ⟨none⟩⟩]))
          = (.success "No response generated".data, 1) ∧
        GroqProvider.generateResponse key (.ok (some [⟨none⟩]))
          = (.success "No response generated".data, 1) ∧
        GroqProvider.generateResponse key (.ok (some []))
          = (.success "No response generated".data, 1)) ∧
    (∀ (key : Option Str) (t : Str), jsFalsyStr key = false →
      GeminiProvider.generateResponse key (.ok t) = (.success t, 1)) := by
  refine ⟨?_, ?_, ?_⟩
  · intro key content hk
    simp only [GroqProvider.generateResponse, hk, Bool.false_eq_true, if_false,
      groqMapOutcome, List.head?]
    split <;> rfl
  · intro key hk
    refine ⟨?_, ?_, ?_⟩ <;>
      simp only [GroqProvider.generateResponse, hk, Bool.false_eq_true, if_false,
        groqMapOutcome, List.head?]
  · intro key t hk
    simp only [GeminiProvider.generateResponse, hk, Bool.false_eq_true, if_false,
      geminiMapOutcome]

/-- Witness for `C6_success_mapping` at concrete inputs: content `"  hi  "`
trims to `"hi"` for Groq; Gemini returns `" x "` verbatim. -/
theorem C6_success_mapping_witness :
    GroqProvider.generateResponse (some "k".data)
        (.ok (some [⟨some ⟨some "  hi  ".data⟩⟩]))
      = (.success (if (trimList "  hi  ".data).isEmpty then "No response generated".data
          else trimList "  hi  ".data), 1) ∧
    GeminiProvider.generateResponse (some "k".data) (.ok " x ".data)
      = (.success " x ".data, 1) :=
  ⟨C6_success_mapping.1 (some "k".data) "  hi  ".data rfl,
   C6_success_mapping.2.2 (some "k".data) " x ".data rfl⟩

/-- C9: in the Groq adapter a content field that is present but trims to the
empty string is indistinguishable at the public interface from an absent
content field: both map to `Success("No response generated")`, because the
fallback is chosen whenever the trimmed content is falsy. -/
theorem C9_blank_content_indistinguishable :
    ∀ (key : Option Str) (content : Str), trimList content = [] →
      GroqProvider.generateResponse key (.ok (some [⟨some ⟨some content⟩⟩]))
          = GroqProvider.generateResponse key (.ok (some [⟨some ⟨none⟩⟩])) ∧
        (jsFalsyStr key = false →
          GroqProvider.generateResponse key (.ok (some [⟨some ⟨some content⟩⟩]))
            = (.success "No response generated".data, 1)) := by
  intro key content htrim
  by_cases hk : jsFalsyStr key = true
  · constructor
    · simp only [GroqProvider.generateResponse, hk, if_true]
    · intro hfalse
      rw [hk] at hfalse
      cases hfalse
  · rw [Bool.not_eq_true] at hk
    constructor
    · simp only [GroqProvider.generateResponse, hk, Bool.false_eq_true, if_false,
        groqMapOutcome, List.head?, htrim, List.isEmpty_nil, if_true]
    · intro _
      simp only [GroqProvider.generateResponse, hk, Bool.false_eq_true, if_false,
        groqMapOutcome, List.head?, htrim, List.isEmpty_nil, if_true]

/-- Witness for `C9_blank_content_indistinguishable` at the concrete
whitespace-only content `"  "` and key `"k"`. -/
theorem C9_blank_content_indistinguishable_witness :
    GroqProvider.generateResponse (some "k".data) (.ok (some [⟨some ⟨some "  ".data⟩⟩]))
      = (.success "No response generated".data, 1) :=
  (C9_blank_content_indistinguishable (some "k".data) "  ".data (by decide)).2 rfl

example : parseJson "null".data = .ok .null := rfl

example : parseJson " [1, 2.5, -3e2] ".data
    = .ok (.arr [.num 1 0, .num 25 (-1), .num (-3) 2]) := rfl

example : parseJson "\x7b\"a\": true, \"b\": \"x\", \"a\": null\x7d".data
    = .ok (.obj [("a".data, .bool true), ("b".data, .str "x".data),
        ("a".data, .null)]) := rfl

example : (parseJson "\x7b\"a\": true".data).isOk = false := rfl

example : jsGet (.obj [("a".data, .bool true), ("a".data, .null)]) "a".data
    = some .null := rfl

/-- A fence-free, already-trimmed string is a fixed point of the two-pass
cleanup (for any tagged first pattern that starts with the bare fence). -/
theorem cleanup_fixed (absorb : Bool) (pat1 : Str) {s : Str}
    (hpre : "```".data <+: pat1) (h3 : ¬ "```".data <:+: s) (ht : trimList s = s) :
    trimList (removeAll absorb "```".data (removeAll absorb pat1 s)) = s := by
  rw [removeAll_eq_self_of_no_occurrence absorb s (no_tagged_fence_of_no_fence hpre h3),
    removeAll_eq_self_of_no_occurrence absorb s h3, ht]

/-- C8: both normalizers are idempotent on their own successful output.  A
successful `normalizeDiagram` value normalizes again to itself; the
successful output of the analysis cleanup-and-validate stage
(`analyzeCodePatterns`, whose success value is the cleaned text) passes the
stage again unchanged, and normalizing it yields exactly the same analysis
as the original raw text. -/
theorem C8_idempotence :
    (∀ raw s : Str, normalizeDiagram raw = .ok s → normalizeDiagram s = .ok s) ∧
    (∀ raw s : Str, analyzeCodePatterns raw = .ok s →
      analyzeCodePatterns s = .ok s ∧ normalizeAnalysis s = normalizeAnalysis raw) := by
  constructor
  · intro raw s hok
    simp only [normalizeDiagram] at hok
    by_cases hv : diagramValid (sanitizeDiagram raw) = true
    · rw [if_pos hv] at hok
      cases hok
      have hfix : sanitizeDiagram (sanitizeDiagram raw) = sanitizeDiagram raw :=
        cleanup_fixed false "```mermaid".data (by decide)
          (cleanup_no_fence false "```mermaid".data raw) (trimList_of_trimmed rfl)
      simp only [normalizeDiagram, hfix, hv, if_true]
    · rw [if_neg hv] at hok
      cases hok
  · intro raw s hok
    cases hpj : parseJson (cleanAnalysis raw) with
    | error e =>
      simp only [analyzeCodePatterns, hpj] at hok
      cases hok
    | ok j =>
      simp only [analyzeCodePatterns, hpj, Except.ok.injEq] at hok
      cases hok
      have hclean : cleanAnalysis (cleanAnalysis raw) = cleanAnalysis raw :=
        cleanup_fixed true "```json".data (by decide)
          (cleanup_no_fence true "```json".data raw) (trimList_of_trimmed rfl)
      constructor
      · simp only [analyzeCodePatterns, hclean, hpj]
      · show checkPatternAnalysis (cleanAnalysis (cleanAnalysis raw)) = _
        rw [hclean]
        rfl

/-- Witness for `C8_idempotence`: re-normalizing the concrete successful
outputs of both normalizers. -/
theorem C8_idempotence_witness :
    normalizeDiagram "graph TD\nA-->B".data = .ok "graph TD\nA-->B".data ∧
      (analyzeCodePatterns "\x7b\"a\": 1\x7d".data = .ok "\x7b\"a\": 1\x7d".data ∧
        normalizeAnalysis "\x7b\"a\": 1\x7d".data
          = normalizeAnalysis "```json\n\x7b\"a\": 1\x7d\n```".data) :=
  ⟨C8_idempotence.1 "```mermaid\ngraph TD\nA-->B\n```".data "graph TD\nA-->B".data rfl,
   C8_idempotence.2 "```json\n\x7b\"a\": 1\x7d\n```".data "\x7b\"a\": 1\x7d".data rfl⟩

theorem escLt_cons (c : Char) (t : Str) :
    escLt (c :: t) = (if c = '<' then "&lt;".data else [c]) ++ escLt t :=
  List.flatMap_cons c t _

theorem escGt_append (x y : Str) : escGt (x ++ y) = escGt x ++ escGt y :=
  List.flatMap_append x y _

/-- The two sequential single-character replacement passes fuse into one
simultaneous replacement: every `<` becomes `&lt;`, every `>` becomes `&gt;`,
every other character is kept (the first pass's output `&lt;` contains no `>`
for the second pass to disturb). -/
theorem escapeAngles_eq_flatMap (s : Str) :
    escapeAngles s = s.flatMap (fun c =>
      if c = '<' then "&lt;".data else if c = '>' then "&gt;".data else [c]) := by
  induction s with
  | nil => rfl
  | cons c t ih =>
    have hsplit : escapeAngles (c :: t)
        = escGt (if c = '<' then "&lt;".data else [c]) ++ escapeAngles t := by
      show escGt (escLt (c :: t)) = _
      rw [escLt_cons, escGt_append]
      rfl
    rw [hsplit, ih, List.flatMap_cons]
    congr 1
    by_cases h1 : c = '<'
    · subst h1; rfl
    · by_cases h2 : c = '>'
      · subst h2; rfl
      · simp only [if_neg h1, if_neg h2]
        show escGt [c] = [c]
        simp [escGt, h2]

/-- No angle bracket survives the escaping, so the embedded raw text can
never open or close an HTML tag. -/
theorem escapeAngles_no_angles (s : Str) :
    '<' ∉ escapeAngles s ∧ '>' ∉ escapeAngles s := by
  rw [escapeAngles_eq_flatMap]
  constructor <;>
  · intro hmem
    rw [List.mem_flatMap] at hmem
    obtain ⟨a, _, hin⟩ := hmem
    split at hin
    · exact absurd hin (by decide)
    · split at hin
      · exact absurd hin (by decide)
      · rw [List.mem_singleton] at hin
        exact absurd hin.symm (by assumption)

/-- C10: the raw response text embedded in the error panel's collapsible
section is HTML-escaped first — for every input string, every occurrence of
`<` is replaced by `&lt;` and every occurrence of `>` by `&gt;` (other
characters are kept), so no angle bracket reaches the error document and raw
model output is never inserted as markup. -/
theorem C10_error_panel_escaped :
    (∀ s : Str, escapeAngles s = s.flatMap (fun c =>
      if c = '<' then "&lt;".data else if c = '>' then "&gt;".data else [c])) ∧
    (∀ s : Str, '<' ∉ escapeAngles s ∧ '>' ∉ escapeAngles s) ∧
    (∀ (raw : Str) (e : AnalysisError), normalizeAnalysis raw = .error e →
      errorPanelRaw e = escapeAngles e.raw ∧
        '<' ∉ errorPanelRaw e ∧ '>' ∉ errorPanelRaw e) :=
  ⟨escapeAngles_eq_flatMap, escapeAngles_no_angles,
   fun _ e _ => ⟨rfl, (escapeAngles_no_angles e.raw).1, (escapeAngles_no_angles e.raw).2⟩⟩

/-- Witness for `C10_error_panel_escaped` at the concrete string
`"<script>"`. -/
theorem C10_error_panel_escaped_witness :
    escapeAngles "<script>".data = "&lt;script&gt;".data ∧
      '<' ∉ escapeAngles "<script>".data :=
  ⟨(C10_error_panel_escaped.1 "<script>".data).trans rfl,
   (C10_error_panel_escaped.2.1 "<script>".data).1⟩

theorem checkPatternAnalysis_eq (s : Str) :
    checkPatternAnalysis s =
      match parseJson (trimList s) with
      | .error diag => .error ⟨diag, s⟩
      | .ok j =>
        if fourFieldsTruthy j then
          .ok ⟨(jsGet j "patterns".data).getD .null,
               (jsGet j "antiPatterns".data).getD .null,
               (jsGet j "recommendations".data).getD .null,
               (jsGet j "performance_metrics".data).getD .null⟩
        else .error ⟨missingPropsMsg, s⟩ := by
  simp only [checkPatternAnalysis, fourFieldsTruthy, Bool.and_assoc]

theorem normalizeAnalysis_parse_error {raw d : Str}
    (hpj : parseJson (cleanAnalysis raw) = .error d) :
    normalizeAnalysis raw = .error ⟨d, cleanAnalysis raw⟩ := by
  have ht : trimList (cleanAnalysis raw) = cleanAnalysis raw := trimList_of_trimmed rfl
  show checkPatternAnalysis (cleanAnalysis raw) = _
  rw [checkPatternAnalysis_eq, ht, hpj]

theorem normalizeAnalysis_parse_ok {raw : Str} {j : Json}
    (hpj : parseJson (cleanAnalysis raw) = .ok j) :
    normalizeAnalysis raw =
      if fourFieldsTruthy j then
        .ok ⟨(jsGet j "patterns".data).getD .null,
             (jsGet j "antiPatterns".data).getD .null,
             (jsGet j "recommendations".data).getD .null,
             (jsGet j "performance_metrics".data).getD .null⟩
      else .error ⟨missingPropsMsg, cleanAnalysis raw⟩ := by
  have ht : trimList (cleanAnalysis raw) = cleanAnalysis raw := trimList_of_trimmed rfl
  show checkPatternAnalysis (cleanAnalysis raw) = _
  rw [checkPatternAnalysis_eq, ht, hpj]

theorem jsTruthyField_spec {j : Json} {k : Str} (h : jsTruthyField j k = true) :
    ∃ v : Json, jsGet j k = some v ∧ v.truthy = true := by
  unfold jsTruthyField at h
  cases hg : jsGet j k with
  | none => rw [hg] at h; cases h
  | some v => rw [hg] at h; exact ⟨v, rfl, h⟩

/-- A successfully normalized analysis carries exactly the four parsed field
values, untouched: no clamping of numbers, no restriction of enumerated
strings, no reordering of arrays can occur, because the accepted record's
fields are precisely the JSON subterms the parse produced. -/
theorem normalizeAnalysis_ok_spec {raw : Str} {pa : PatternAnalysis}
    (hok : normalizeAnalysis raw = .ok pa) :
    ∃ j : Json, parseJson (cleanAnalysis raw) = .ok j ∧
      jsGet j "patterns".data = some pa.patterns ∧
      jsGet j "antiPatterns".data = some pa.antiPatterns ∧
      jsGet j "recommendations".data = some pa.recommendations ∧
      jsGet j "performance_metrics".data = some pa.performance_metrics ∧
      pa.patterns.truthy = true ∧ pa.antiPatterns.truthy = true ∧
      pa.recommendations.truthy = true ∧ pa.performance_metrics.truthy = true := by
  cases hpj : parseJson (cleanAnalysis raw) with
  | error d =>
    rw [normalizeAnalysis_parse_error hpj] at hok
    cases hok
  | ok j =>
    rw [normalizeAnalysis_parse_ok hpj] at hok
    by_cases hall : fourFieldsTruthy j = true
    · rw [if_pos hall] at hok
      cases hok
      have hall4 := hall
      unfold fourFieldsTruthy at hall4
      simp only [Bool.and_eq_true] at hall4
      obtain ⟨⟨⟨t1, t2⟩, t3⟩, t4⟩ := hall4
      obtain ⟨v1, hv1, ht1⟩ := jsTruthyField_spec t1
      obtain ⟨v2, hv2, ht2⟩ := jsTruthyField_spec t2
      obtain ⟨v3, hv3, ht3⟩ := jsTruthyField_spec t3
      obtain ⟨v4, hv4, ht4⟩ := jsTruthyField_spec t4
      refine ⟨j, rfl, ?_, ?_, ?_, ?_, ?_, ?_, ?_, ?_⟩ <;>
        simp only [hv1, hv2, hv3, hv4, Option.getD_some] <;> assumption
    · rw [if_neg hall] at hok
      cases hok

/-- C2 counterexample: `analysisNullPatterns` is well-formed JSON in which
all four required top-level fields are present, yet the normalizer rejects
it (the four-field check tests truthiness, and `null` is falsy) — so "a
validation error exactly when the cleaned text is malformed JSON or one of
the four fields is missing" is false as stated. -/
theorem C2_counterexample :
    parseJson (cleanAnalysis analysisNullPatterns) = .ok analysisNullParsed ∧
      (jsGet analysisNullParsed "patterns".data).isSome = true ∧
      (jsGet analysisNullParsed "antiPatterns".data).isSome = true ∧
      (jsGet analysisNullParsed "recommendations".data).isSome = true ∧
      (jsGet analysisNullParsed "performance_metrics".data).isSome = true ∧
      normalizeAnalysis analysisNullPatterns
        = .error ⟨missingPropsMsg, cleanAnalysis analysisNullPatterns⟩ :=
  ⟨rfl, rfl, rfl, rfl, rfl, rfl⟩

/-- C2 (amended): the analysis normalizer yields a validation error, and
never a partially-accepted record, exactly when the cleaned text is malformed
JSON **or any one of the four top-level fields is missing or bound to a falsy
value** (`null`, `false`, `0`, `""`); the error embeds the underlying parse
diagnostic (or the missing-properties message) together with the offending
cleaned text, which the error panel preserves for display rather than
silently discarding. -/
theorem C2_validation_characterized :
    (∀ raw : Str, (normalizeAnalysis raw).isOk = true ↔
      (∃ j : Json, parseJson (cleanAnalysis raw) = .ok j ∧ fourFieldsTruthy j = true)) ∧
    (∀ (raw : Str) (pa : PatternAnalysis), normalizeAnalysis raw = .ok pa →
      ∃ j : Json, parseJson (cleanAnalysis raw) = .ok j ∧
        jsGet j "patterns".data = some pa.patterns ∧
        jsGet j "antiPatterns".data = some pa.antiPatterns ∧
        jsGet j "recommendations".data = some pa.recommendations ∧
        jsGet j "performance_metrics".data = some pa.performance_metrics ∧
        pa.patterns.truthy = true ∧ pa.antiPatterns.truthy = true ∧
        pa.recommendations.truthy = true ∧ pa.performance_metrics.truthy = true) ∧
    (∀ (raw : Str) (e : AnalysisError), normalizeAnalysis raw = .error e →
      e.raw = cleanAnalysis raw ∧
        (parseJson (cleanAnalysis raw) = .error e.message ∨
          e.message = missingPropsMsg)) ∧
    (∀ (raw d : Str), parseJson (cleanAnalysis raw) = .error d →
      analyzeCodePatterns raw
        = .error ("Invalid JSON response from LLM: ".data ++ d)) := by
  refine ⟨?_, ?_, ?_, ?_⟩
  · intro raw
    cases hpj : parseJson (cleanAnalysis raw) with
    | error d =>
      rw [normalizeAnalysis_parse_error hpj]
      refine iff_of_false (fun h => nomatch h) ?_
      intro ⟨j, hj, _⟩
      cases hj
    | ok j =>
      rw [normalizeAnalysis_parse_ok hpj]
      by_cases hall : fourFieldsTruthy j = true
      · rw [if_pos hall]
        exact iff_of_true rfl ⟨j, rfl, hall⟩
      · rw [if_neg hall]
        refine iff_of_false (fun h => nomatch h) ?_
        intro ⟨j', hj', hall'⟩
        cases hj'
        exact hall hall'
  · exact fun raw pa hok => normalizeAnalysis_ok_spec hok
  · intro raw e herr
    cases hpj : parseJson (cleanAnalysis raw) with
    | error d =>
      rw [normalizeAnalysis_parse_error hpj] at herr
      cases herr
      exact ⟨rfl, Or.inl rfl⟩
    | ok j =>
      rw [normalizeAnalysis_parse_ok hpj] at herr
      by_cases hall : fourFieldsTruthy j = true
      · rw [if_pos hall] at herr
        cases herr
      · rw [if_neg hall] at herr
        cases herr
        exact ⟨rfl, Or.inr rfl⟩
  · intro raw d hpj
    simp only [analyzeCodePatterns, hpj]

/-- Witness for `C2_validation_characterized` at the concrete rejected input
`analysisNullPatterns`. -/
theorem C2_validation_characterized_witness :
    (AnalysisError.mk missingPropsMsg (cleanAnalysis analysisNullPatterns)).raw
        = cleanAnalysis analysisNullPatterns ∧
      (parseJson (cleanAnalysis analysisNullPatterns)
          = .error (AnalysisError.mk missingPropsMsg
              (cleanAnalysis analysisNullPatterns)).message ∨
        (AnalysisError.mk missingPropsMsg
            (cleanAnalysis analysisNullPatterns)).message = missingPropsMsg) :=
  C2_validation_characterized.2.2.1 analysisNullPatterns
    ⟨missingPropsMsg, cleanAnalysis analysisNullPatterns⟩ rfl

/-- A `removeAll` pass is transparent to a left factor inside which (and
across whose right edge) no match can start. -/
theorem removeAll_append_of_no_match (absorb : Bool) (pat t : Str) :
    ∀ l : Str, (∀ s₁ s₂ : Str, l = s₁ ++ s₂ → s₂ ≠ [] →
        ¬ List.isPrefixOf pat (s₂ ++ t)) →
      removeAll absorb pat (l ++ t) = l ++ removeAll absorb pat t := by
  intro l
  induction l with
  | nil => intro _; rfl
  | cons c l' ih =>
    intro hno
    have hm : ¬ List.isPrefixOf pat ((c :: l') ++ t) :=
      hno [] (c :: l') rfl (by simp)
    rw [List.cons_append] at hm ⊢
    rw [removeAll_cons, if_neg hm,
      ih (fun s₁ s₂ heq hne => hno (c :: s₁) s₂ (by rw [heq, List.cons_append]) hne),
      List.cons_append]

/-- No match of a fence pattern (one starting with ```` ``` ````) can begin
inside a fence-free suffix `B` of the body when `B` is followed by the
closing `"\n```"`: a match inside `B` would put a bare fence into the body,
and a match reaching past `B`'s edge would need a backtick where the newline
sits. -/
theorem no_fence_match_in_body {pat body B : Str}
    (hpatBT : pat.take 3 = "```".data) (hBsuf : B <:+ body)
    (hbody : ¬ "```".data <:+: body) :
    ∀ s₁ s₂ : Str, B = s₁ ++ s₂ → s₂ ≠ [] →
      ¬ List.isPrefixOf pat (s₂ ++ "\n```".data) := by
  intro s₁ s₂ heq hne hmatch
  rw [ List.isPrefixOf_iff_prefix] at hmatch
  have hpat3 : "```".data <+: pat := by
    rw [← hpatBT]; exact List.take_prefix 3 pat
  have h3 : "```".data <+: s₂ ++ "\n```".data := List.IsPrefix.trans hpat3 hmatch
  by_cases hlen : 3 ≤ s₂.length
  · rw [ List.isPrefix_append_of_length (by simpa using hlen)] at h3
    apply hbody
    have hs2 : s₂ <:+ B := ⟨s₁, heq.symm⟩
    have hinB : "```".data <:+: B := by
      obtain ⟨u, hu⟩ := hs2
      obtain ⟨v, hv⟩ := h3
      exact ⟨u, v, by rw [← hu, ← hv, List.append_assoc]⟩
    exact List.IsInfix.trans hinB (List.IsSuffix.isInfix hBsuf)
  · push_neg at hlen
    rw [backtick_fence_eq_run] at h3
    have hnl : ("\n```".data : Str) = '\n' :: [btChar, btChar, btChar] := by decide
    rcases s₂ with _ | ⟨a, _ | ⟨b, r⟩⟩
    · exact hne rfl
    · rw [hnl] at h3
      rw [show ([a] ++ '\n' :: [btChar, btChar, btChar] : Str)
          = a :: '\n' :: [btChar, btChar, btChar] from rfl] at h3
      rw [ List.cons_prefix_cons] at h3
      rw [ List.cons_prefix_cons] at h3
      exact absurd h3.2.1 (by decide)
    · rcases r with _ | ⟨c, r'⟩
      · rw [hnl] at h3
        rw [show ([a, b] ++ '\n' :: [btChar, btChar, btChar] : Str)
            = a :: b :: '\n' :: [btChar, btChar, btChar] from rfl] at h3
        rw [ List.cons_prefix_cons] at h3
        obtain ⟨-, h3⟩ := h3
        rw [ List.cons_prefix_cons] at h3
        obtain ⟨-, h3⟩ := h3
        rw [ List.cons_prefix_cons] at h3
        exact absurd h3.1 (by decide)
      · simp only [List.length_cons] at hlen
        omega

theorem removeAll_head_match (absorb : Bool) (pat x : Str) (hne : pat ≠ []) :
    removeAll absorb pat (pat ++ x)
      = removeAll absorb pat (afterMatch absorb pat (pat.tail ++ x)) := by
  match pat, hne with
  | p :: ps, _ =>
    have hpre : List.isPrefixOf (p :: ps) (p :: (ps ++ x)) = true := by
      rw [ List.isPrefixOf_iff_prefix, ← List.cons_append]
      exact List.prefix_append (p :: ps) x
    rw [List.cons_append, removeAll_cons, if_pos hpre]
    rfl

theorem afterMatch_tail_append (absorb : Bool) (pat x : Str) :
    afterMatch absorb pat (pat.tail ++ x)
      = if absorb then x.dropWhile isJsWs else x := by
  unfold afterMatch
  rw [show pat.length - 1 = pat.tail.length from (List.length_tail pat).symm,
    List.drop_left]

/-- Wrapping a fence-free body in the tagged fences is transparent to the
analysis cleanup: the cleanup returns exactly the trimmed body. -/
theorem cleanAnalysis_fenced (body : Str) (hbody : ¬ "```".data <:+: body) :
    cleanAnalysis (wrapJsonFence body) = trimList body := by
  have hw : wrapJsonFence body
      = "```json".data ++ ('\n' :: (body ++ "\n```".data)) := by
    show "```json\n".data ++ body ++ "\n```".data = _
    rw [show ("```json\n".data : Str) = "```json".data ++ ['\n'] from by decide]
    simp [List.append_assoc]
  show trimList (removeAll true "```".data
    (removeAll true "```json".data (wrapJsonFence body))) = _
  rw [hw, removeAll_head_match true "```json".data _ (by decide),
    afterMatch_tail_append, if_pos rfl,
    List.dropWhile_cons_of_pos (by decide : isJsWs '\n' = true),
    List.dropWhile_append]
  by_cases hB : (List.dropWhile isJsWs body).isEmpty = true
  · rw [if_pos hB,
      show List.dropWhile isJsWs "\n```".data = "```".data from by decide,
      show removeAll true "```json".data "```".data = "```".data from by decide,
      show removeAll true "```".data "```".data = ([] : Str) from by decide,
      show trimList ([] : Str) = [] from by decide]
    show ([] : Str) = (body.dropWhile isJsWs).rdropWhile isJsWs
    rw [List.isEmpty_iff.mp hB, List.rdropWhile_nil]
  · rw [if_neg hB]
    set B := List.dropWhile isJsWs body with hBdef
    have hBsuf : B <:+ body := List.dropWhile_suffix isJsWs
    have hdis1 := @no_fence_match_in_body "```json".data body B (by decide) hBsuf hbody
    have hdis2 := @no_fence_match_in_body "```".data body B (by decide) hBsuf hbody
    rw [removeAll_append_of_no_match true "```json".data "\n```".data B hdis1,
      show removeAll true "```json".data "\n```".data = "\n```".data from by decide,
      removeAll_append_of_no_match true "```".data "\n```".data B hdis2,
      show removeAll true "```".data "\n```".data = (['\n'] : Str) from by decide]
    show (List.dropWhile isJsWs (B ++ ['\n'])).rdropWhile isJsWs = _
    rw [List.dropWhile_append]
    have hBfix : List.dropWhile isJsWs B = B := by
      rw [hBdef]
      exact List.dropWhile_idempotent isJsWs body
    rw [hBfix, if_neg hB, List.rdropWhile_concat_pos isJsWs B '\n' (by decide), hBdef]
    rfl

/-- C7 counterexample: for the fenced blob whose `patterns` array holds the
string `"```"`, the source value (the blob's own parse) has that string, but
normalization of the fenced blob strips the backticks inside the JSON string
value before parsing, so the accepted record's `patterns` field is `[""]` —
not equal to the source value.  "For every fenced JSON blob ... the parsed
structure's fields match the source values exactly" is false as stated. -/
theorem C7_counterexample :
    parseJson analysisFenceInString = .ok analysisFenceInStringParsed ∧
      fourFieldsTruthy analysisFenceInStringParsed = true ∧
      jsGet analysisFenceInStringParsed "patterns".data
        = some (Json.arr [Json.str "```".data]) ∧
      normalizeAnalysis (wrapJsonFence analysisFenceInString)
        = .ok ⟨Json.arr [Json.str []], Json.arr [], Json.arr [], Json.obj []⟩ ∧
      Json.arr [Json.str []] ≠ Json.arr [Json.str "```".data] :=
  ⟨rfl, rfl, rfl, rfl, by simp⟩

/-- C7 (amended): `normalizeAnalysis` is a value-preserving round trip for
every fenced JSON blob **whose content contains no fence delimiter** — the
fenced wrapping is stripped transparently and the accepted record's fields
are exactly the JSON values the cleaned text parses to, with no clamping of
out-of-range numbers and no restriction of enumerated strings (fence
sequences inside JSON string values are destroyed by the pre-parse cleanup,
per the counterexample).  The concrete blob with `confidence` values `2.5`
and `-0.75`, `severity` `"catastrophic"` and `performance_impact` `"ultra"`
round-trips exactly, arrays in order. -/
theorem C7_roundtrip :
    (∀ body : Str, ¬ "```".data <:+: body →
      cleanAnalysis (wrapJsonFence body) = trimList body ∧
        normalizeAnalysis (wrapJsonFence body) = checkPatternAnalysis (trimList body)) ∧
    (∀ (raw : Str) (pa : PatternAnalysis), normalizeAnalysis raw = .ok pa →
      ∃ j : Json, parseJson (cleanAnalysis raw) = .ok j ∧
        jsGet j "patterns".data = some pa.patterns ∧
        jsGet j "antiPatterns".data = some pa.antiPatterns ∧
        jsGet j "recommendations".data = some pa.recommendations ∧
        jsGet j "performance_metrics".data = some pa.performance_metrics) ∧
    normalizeAnalysis (wrapJsonFence analysisRich) = .ok analysisRichRecord := by
  refine ⟨?_, ?_, ?_⟩
  · intro body hbody
    refine ⟨cleanAnalysis_fenced body hbody, ?_⟩
    show checkPatternAnalysis (cleanAnalysis (wrapJsonFence body)) = _
    rw [cleanAnalysis_fenced body hbody]
  · intro raw pa hok
    obtain ⟨j, h0, h1, h2, h3, h4, -⟩ := normalizeAnalysis_ok_spec hok
    exact ⟨j, h0, h1, h2, h3, h4⟩
  · rfl

/-- Witness for `C7_roundtrip`: fence transparency at the concrete body
`\x7b"a": 1\x7d`. -/
theorem C7_roundtrip_witness :
    cleanAnalysis (wrapJsonFence "\x7b\"a\": 1\x7d".data)
        = trimList "\x7b\"a\": 1\x7d".data ∧
      normalizeAnalysis (wrapJsonFence "\x7b\"a\": 1\x7d".data)
        = checkPatternAnalysis (trimList "\x7b\"a\": 1\x7d".data) :=
  C7_roundtrip.1 "\x7b\"a\": 1\x7d".data (by decide)
